import Mathlib

/-!
Verification development for the text-sequence parser of this repository
(src/utils/parseDataText.ts).  The parser is shallowly embedded: strings are
Lean `String`s, tokens are `List Char`, JavaScript numbers are modelled by the
exact rational value of the decimal literal (`ℚ`) together with the explicit
finiteness bound of IEEE-754 binary64 (a decimal literal converts to a finite
double exactly when its exact value is below `2^1024 - 2^970` in absolute
value), and `Date` instants are integers counting milliseconds since the Unix
epoch, with `Date.UTC` reproduced by the ECMAScript `MakeDay`/`MakeTime`
algorithm (proleptic Gregorian days, month/day arithmetic overflow, the
`MakeFullYear` shift of years 0..99 to 1900..1999, and the `TimeClip` range
of at most 8.64e15 milliseconds).
-/

/-- ASCII digit test, the meaning of `\d` in the source's regexes. -/
def isDig (c : Char) : Bool := 48 ≤ c.toNat && c.toNat ≤ 57

/-- Numeric value of an ASCII digit. -/
def digitVal (c : Char) : ℕ := c.toNat - 48

/-- Value of a digit string, most significant digit first. -/
def digitsVal (cs : List Char) : ℕ := cs.foldl (fun a c => 10 * a + digitVal c) 0

/-- Whitespace for the purposes of `String.prototype.trim` and the `\s`
class of the source's regexes (ASCII forms plus NBSP and BOM). -/
def isJsSpace (c : Char) : Bool :=
  c = ' ' || c = '\t' || c = '\n' || c = '\r' ||
  c = '\x0b' || c = '\x0c' || c = '\u00A0' || c = '\uFEFF'

/-- JavaScript `String.prototype.trim` on a character list. -/
def jsTrim (cs : List Char) : List Char :=
  ((cs.dropWhile isJsSpace).reverse.dropWhile isJsSpace).reverse

/-- The effect of `text.replace(/\r\n/g, "\n").replace(/\r/g, "\n")`:
each CRLF pair and each remaining CR becomes a single LF. -/
def normalizeNewlines : List Char → List Char
  | [] => []
  | '\r' :: '\n' :: rest => '\n' :: normalizeNewlines rest
  | '\r' :: rest => '\n' :: normalizeNewlines rest
  | c :: rest => c :: normalizeNewlines rest

/-- JavaScript `s.split(sep)` for a single-character separator. -/
def splitOnChar (sep : Char) : List Char → List (List Char)
  | [] => [[]]
  | c :: rest =>
    if c = sep then [] :: splitOnChar sep rest
    else
      match splitOnChar sep rest with
      | [] => [[c]]
      | g :: gs => (c :: g) :: gs

/-- A token of a row, as produced by splitting a line at the delimiter. -/
abbrev Token := List Char

/-- A tokenized row. -/
abbrev Row := List Token

/-- Step 1 of the parser: normalize line endings, split into lines, trim
each line and drop the blank ones. -/
def linesOf (text : String) : List Token :=
  (((splitOnChar '\n' (normalizeNewlines text.data)).map jsTrim).filter
    (fun l => !l.isEmpty))

/-- Strip one optional leading sign, as `[+-]?` does. -/
def stripSign : List Char → List Char
  | '+' :: rest => rest
  | '-' :: rest => rest
  | cs => cs

/-- Whether the literal starts with a minus sign. -/
def isNeg : List Char → Bool
  | '-' :: _ => true
  | _ => false

/-- Split the mantissa as `\d+\.?\d*` or `\.\d+` would: integer digits,
fractional digits, and the unconsumed remainder. -/
def mantissaSplit (cs : List Char) : List Char × List Char × List Char :=
  let intD := cs.takeWhile isDig
  let r := cs.dropWhile isDig
  match r with
  | '.' :: r2 => (intD, r2.takeWhile isDig, r2.dropWhile isDig)
  | _ => (intD, [], r)

/-- Whether a character list is a nonempty run of digits, as `\d+` at the
end of the pattern requires. -/
def expDigitsOk (cs : List Char) : Bool := !cs.isEmpty && cs.all isDig

/-- Whether the remainder after the mantissa matches `(?:[eE][+-]?\d+)?$`. -/
def expPartOk : List Char → Bool
  | [] => true
  | 'e' :: rest => expDigitsOk (stripSign rest)
  | 'E' :: rest => expDigitsOk (stripSign rest)
  | _ => false

/-- The source's `NUM_RE` test:
`/^[+-]?(?:\d+\.?\d*|\.\d+)(?:[eE][+-]?\d+)?$/`. -/
def numReTest (cs : List Char) : Bool :=
  let body := stripSign cs
  match mantissaSplit body with
  | (intD, fracD, rest) => (!intD.isEmpty || !fracD.isEmpty) && expPartOk rest

/-- Signed exponent value after the `e`/`E`. -/
def expSigned : List Char → ℤ
  | '+' :: r => (digitsVal r : ℤ)
  | '-' :: r => -(digitsVal r : ℤ)
  | r => (digitsVal r : ℤ)

/-- Exponent value of the remainder after the mantissa (0 when absent). -/
def expVal : List Char → ℤ
  | 'e' :: rest => expSigned rest
  | 'E' :: rest => expSigned rest
  | _ => 0

/-- Exact rational value of a decimal literal accepted by `NUM_RE`; this is
the mathematical value that JavaScript `Number(s)` rounds to binary64. -/
def numValue (cs : List Char) : ℚ :=
  let body := stripSign cs
  match mantissaSplit body with
  | (intD, fracD, rest) =>
    let mag : ℚ :=
      (digitsVal intD : ℚ) + (digitsVal fracD : ℚ) / (10 : ℚ) ^ fracD.length
    let v := mag * (10 : ℚ) ^ expVal rest
    if isNeg cs then -v else v

/-- The smallest positive rational that rounds to `Infinity` in binary64:
values with `|q|` at least `2^1024 - 2^970` overflow, everything below is
finite.  This is the exact boundary used by `Number.isFinite(Number(s))`
for decimal literals.  Written as the explicit numeral so that the kernel
can evaluate comparisons against it; `jsFiniteLimit_eq` below checks that
it is the intended power difference. -/
def jsFiniteLimit : ℚ :=
  179769313486231580793728971405303415079934132710037826936173778980444968292764750946649017977587207096330286416692887910946555547851940402630657488671505820681908902000708383676273854845817711531764475730270069855571366959622842914819860834936475292719074168444365510704342711559699508093042880177904174497792

/-- Whether a rational converts to a finite binary64 value. -/
def jsIsFiniteQ (q : ℚ) : Bool := |q| < jsFiniteLimit

/-- The source's `isFiniteNumberString`: `NUM_RE` matches and the numeric
value is finite. -/
def isFiniteNumberString (cs : List Char) : Bool :=
  numReTest cs && jsIsFiniteQ (numValue cs)

/-- Timezone capture of `ISO_RE`: `Z` or an explicit `±HH:MM` offset. -/
inductive TzCap where
  | utc : TzCap
  | offset (neg : Bool) (th tm : ℕ) : TzCap
  deriving DecidableEq, Repr

/-- Time captures of `ISO_RE`: hours, minutes, optional seconds and
optional milliseconds (already scaled by the `padEnd(3, "0")`). -/
structure TimeCap where
  hh : ℕ
  mi : ℕ
  ss : Option ℕ
  msec : Option ℕ
  deriving DecidableEq, Repr

/-- All captures of a successful `ISO_RE` match. -/
structure IsoCaps where
  y : ℕ
  mo : ℕ
  d : ℕ
  time : Option TimeCap
  tz : Option TzCap
  deriving DecidableEq, Repr

/-- Read exactly two digits. -/
def take2 : List Char → Option (ℕ × List Char)
  | a :: b :: rest =>
    if isDig a && isDig b then some (10 * digitVal a + digitVal b, rest) else none
  | _ => none

/-- Read exactly four digits. -/
def take4 : List Char → Option (ℕ × List Char)
  | a :: b :: c :: d :: rest =>
    if isDig a && isDig b && isDig c && isDig d then
      some (1000 * digitVal a + 100 * digitVal b + 10 * digitVal c + digitVal d, rest)
    else none
  | _ => none

/-- Match `(Z|[+-]\d{2}:\d{2})?$` against a remainder. -/
def matchTz : List Char → Option (Option TzCap)
  | [] => some none
  | ['Z'] => some (some TzCap.utc)
  | '+' :: rest =>
    (match take2 rest with
     | some (h, ':' :: r3) =>
       (match take2 r3 with
        | some (m, []) => some (some (TzCap.offset false h m))
        | _ => none)
     | _ => none)
  | '-' :: rest =>
    (match take2 rest with
     | some (h, ':' :: r3) =>
       (match take2 r3 with
        | some (m, []) => some (some (TzCap.offset true h m))
        | _ => none)
     | _ => none)
  | _ => none

/-- Match `(?::(\d{2})(?:\.(\d{1,3}))?)?` against a remainder, yielding the
seconds capture, the millisecond value after `padEnd(3, "0")`, and the
unconsumed remainder. -/
def matchSecMs : List Char → Option (Option ℕ × Option ℕ × List Char)
  | ':' :: r =>
    (match take2 r with
     | none => none
     | some (ss, r2) =>
       match r2 with
       | '.' :: r3 =>
         let ds := r3.takeWhile isDig
         if 1 ≤ ds.length && ds.length ≤ 3 then
           some (some ss, some (digitsVal ds * 10 ^ (3 - ds.length)), r3.dropWhile isDig)
         else none
       | _ => some (some ss, none, r2))
  | cs => some (none, none, cs)

/-- Match the optional time-and-timezone tail
`(?:[T\s](\d{2}):(\d{2})(?::(\d{2})(?:\.(\d{1,3}))?)?(Z|[+-]\d{2}:\d{2})?)?$`. -/
def matchTime : List Char → Option (Option TimeCap × Option TzCap)
  | [] => some (none, none)
  | c :: rest =>
    if c = 'T' || isJsSpace c then
      match take2 rest with
      | some (hh, ':' :: r2) =>
        (match take2 r2 with
         | some (mi, r3) =>
           (match matchSecMs r3 with
            | some (ss, ms, r4) =>
              (match matchTz r4 with
               | some tz => some (some ⟨hh, mi, ss, ms⟩, tz)
               | none => none)
            | none => none)
         | none => none)
      | _ => none
    else none

/-- The source's `ISO_RE` match:
`/^(\d{4})-(\d{2})-(\d{2})(?:[T\s](\d{2}):(\d{2})(?::(\d{2})(?:\.(\d{1,3}))?)?(Z|[+-]\d{2}:\d{2})?)?$/`. -/
def isoMatch (cs : List Char) : Option IsoCaps :=
  match take4 cs with
  | some (y, '-' :: r1) =>
    (match take2 r1 with
     | some (mo, '-' :: r2) =>
       (match take2 r2 with
        | some (d, r3) =>
          (match matchTime r3 with
           | some (t, tz) => some ⟨y, mo, d, t, tz⟩
           | none => none)
        | none => none)
     | _ => none)
  | _ => none

/-- Days since 1970-01-01 of a proleptic-Gregorian civil date (month in
1..12; the day may exceed the month length, adding the excess). -/
def daysFromCivil (y m d : ℤ) : ℤ :=
  let y2 := if m ≤ 2 then y - 1 else y
  let era := y2 / 400
  let yoe := y2 - era * 400
  let mp := (m + 9) % 12
  let doy := (153 * mp + 2) / 5 + d - 1
  let doe := yoe * 365 + yoe / 4 - yoe / 100 + doy
  era * 146097 + doe - 719468

/-- ECMAScript `MakeDay` composed with `MakeFullYear`, as `Date.UTC` uses:
years 0..99 are shifted to 1900..1999, the month is an arbitrary integer
month index (0 = January) folded into the year by floor division. -/
def makeDay (year month date : ℤ) : ℤ :=
  let yr := if 0 ≤ year ∧ year ≤ 99 then year + 1900 else year
  let ym := yr + month / 12
  let mn := month % 12
  daysFromCivil ym (mn + 1) 1 + (date - 1)

/-- ECMAScript `MakeTime` in milliseconds. -/
def makeTimeMs (hh mi ss ms : ℤ) : ℤ :=
  hh * 3600000 + mi * 60000 + ss * 1000 + ms

/-- The millisecond timestamp the source computes from the `ISO_RE`
captures, mirroring its three branches (date-only, `Z`-or-missing
timezone, explicit offset). -/
def tsOfCaps (c : IsoCaps) : ℤ :=
  let year : ℤ := (c.y : ℤ)
  let month : ℤ := (c.mo : ℤ) - 1
  let day : ℤ := (c.d : ℤ)
  let hh : ℤ := match c.time with | some t => (t.hh : ℤ) | none => 0
  let mi : ℤ := match c.time with | some t => (t.mi : ℤ) | none => 0
  let ss : ℤ := match c.time with | some t => (t.ss.getD 0 : ℤ) | none => 0
  let ms : ℤ := match c.time with | some t => (t.msec.getD 0 : ℤ) | none => 0
  match c.time, c.tz with
  | none, none => makeDay year month day * 86400000 + makeTimeMs 0 0 0 0
  | _, some TzCap.utc => makeDay year month day * 86400000 + makeTimeMs hh mi ss ms
  | _, none => makeDay year month day * 86400000 + makeTimeMs hh mi ss ms
  | _, some (TzCap.offset neg th tm) =>
    let offsetMin : ℤ := (if neg then -1 else 1) * ((th : ℤ) * 60 + (tm : ℤ))
    makeDay year month day * 86400000 + makeTimeMs hh mi ss ms - offsetMin * 60000

/-- The source's `parseIsoToDate`: match `ISO_RE`, build the timestamp, and
reject it when `new Date(ts)` would be invalid (ECMAScript `TimeClip`:
more than 8.64e15 milliseconds from the epoch). -/
def parseIsoToDate (cs : List Char) : Option ℤ :=
  match isoMatch cs with
  | none => none
  | some c =>
    let ts := tsOfCaps c
    if ts.natAbs ≤ 8640000000000000 then some ts else none

/-- An X value of the result: a zero-based index, a finite number, or an
absolute-time instant (milliseconds since the epoch). -/
inductive XVal where
  | index (i : ℕ) : XVal
  | num (q : ℚ) : XVal
  | instant (ms : ℤ) : XVal
  deriving DecidableEq, Repr

/-- Whether an X value is a zero-based index. -/
def XVal.isIndex : XVal → Bool
  | .index _ => true
  | _ => false

/-- Whether an X value is a plain number. -/
def XVal.isNum : XVal → Bool
  | .num _ => true
  | _ => false

/-- Whether an X value is an absolute-time instant. -/
def XVal.isInstant : XVal → Bool
  | .instant _ => true
  | _ => false

/-- The parse result: axis labels and the ordered data points. -/
structure SequenceData where
  timeAxisName : String
  valueAxisName : String
  dataPoints : List (XVal × ℚ)
  deriving DecidableEq, Repr

/-- Decidable equality of parse outcomes, for concrete test evaluations. -/
instance {ε α : Type} [DecidableEq ε] [DecidableEq α] : DecidableEq (Except ε α) := fun a b =>
  match a, b with
  | .error x, .error y =>
    if h : x = y then .isTrue (by rw [h]) else .isFalse (fun hh => by cases hh; exact h rfl)
  | .ok x, .ok y =>
    if h : x = y then .isTrue (by rw [h]) else .isFalse (fun hh => by cases hh; exact h rfl)
  | .error _, .ok _ => .isFalse (fun hh => by cases hh)
  | .ok _, .error _ => .isFalse (fun hh => by cases hh)

/-- The failure taxonomy of the parser, one constructor per `throw` site. -/
inductive ParseError where
  | EmptyInput : ParseError
  | MixedDelimiterInLine : ParseError
  | MixedDelimiterAcrossLines : ParseError
  | InconsistentColumnCount : ParseError
  | UnsupportedColumnCount : ParseError
  | DelimiterColumnMismatch : ParseError
  | EmptyDataRegion : ParseError
  | RowShapeMismatch : ParseError
  | InvalidIsoDate (row : ℕ) : ParseError
  | InvalidX (row : ℕ) (tok : String) : ParseError
  | InvalidY (row : ℕ) (tok : String) : ParseError
  | NonFiniteY (row : ℕ) : ParseError
  | NonFiniteXY (row : ℕ) : ParseError
  deriving DecidableEq, Repr

/-- Delimiter detection over all lines.  The source's loop raises the
in-line error as soon as one line holds both characters, then the
across-lines error when both counters are positive, and otherwise picks
comma over tab over none. -/
def detectDelimiter (lines : List Token) : Except ParseError (Option Char) :=
  if lines.any (fun l => l.contains ',' && l.contains '\t') then
    .error .MixedDelimiterInLine
  else if (lines.any (fun l => l.contains ',')) && (lines.any (fun l => l.contains '\t')) then
    .error .MixedDelimiterAcrossLines
  else
    .ok (if lines.any (fun l => l.contains ',') then some ','
         else if lines.any (fun l => l.contains '\t') then some '\t'
         else none)

/-- Tokenize every line at the detected delimiter (or keep the whole line
as the single token when there is none). -/
def tokenizeRows (delim : Option Char) (lines : List Token) : List Row :=
  lines.map (fun l =>
    match delim with
    | some d => splitOnChar d l
    | none => [l])

/-- Steps 1-3a of the parser: lines, delimiter, tokenized rows. -/
def rowsOfText (text : String) : Except ParseError (Option Char × List Row) :=
  let lines := linesOf text
  if lines.isEmpty then .error .EmptyInput
  else
    match detectDelimiter lines with
    | .error e => .error e
    | .ok delim => .ok (delim, tokenizeRows delim lines)

/-- The source's `isHeaderRow` predicate on the first row: with one column
the row is a header unless the token is numeric; with two columns it is a
header unless the first token looks like data (number or ISO date) and the
second is numeric. -/
def isHeaderRow : Row → Bool
  | [x] => !(isFiniteNumberString x)
  | [x, y] => !((isFiniteNumberString x || (parseIsoToDate x).isSome) && isFiniteNumberString y)
  | _ => false

/-- JavaScript `tok || dflt` on a header token: the empty string is falsy. -/
def tokOr (t : Token) (dflt : String) : String :=
  if t.isEmpty then dflt else String.mk t

/-- Row coercion for the single-column case: each trimmed token must be a
finite-number string; X is the zero-based index within the data region. -/
def coerceOneCol : ℕ → ℕ → List Row → Except ParseError (List (XVal × ℚ))
  | _, _, [] => .ok []
  | rowNum, i, r :: rest =>
    let yRaw := jsTrim (r.headD [])
    if isFiniteNumberString yRaw then
      if jsIsFiniteQ (numValue yRaw) then
        match coerceOneCol (rowNum + 1) (i + 1) rest with
        | .ok pts => .ok ((XVal.index i, numValue yRaw) :: pts)
        | .error e => .error e
      else .error (.NonFiniteY rowNum)
    else .error (.InvalidY rowNum (String.mk yRaw))

/-- Row coercion for the two-column case with date X values. -/
def coerceDates : ℕ → List Row → Except ParseError (List (XVal × ℚ))
  | _, [] => .ok []
  | rowNum, r :: rest =>
    let xRaw := jsTrim (r.headD [])
    let yRaw := jsTrim (r.getD 1 [])
    match parseIsoToDate xRaw with
    | none => .error (.InvalidIsoDate rowNum)
    | some d =>
      if isFiniteNumberString yRaw then
        if jsIsFiniteQ (numValue yRaw) then
          match coerceDates (rowNum + 1) rest with
          | .ok pts => .ok ((XVal.instant d, numValue yRaw) :: pts)
          | .error e => .error e
        else .error (.NonFiniteY rowNum)
      else .error (.InvalidY rowNum (String.mk yRaw))

/-- Row coercion for the two-column case with numeric X values. -/
def coerceNums : ℕ → List Row → Except ParseError (List (XVal × ℚ))
  | _, [] => .ok []
  | rowNum, r :: rest =>
    let xRaw := jsTrim (r.headD [])
    let yRaw := jsTrim (r.getD 1 [])
    if isFiniteNumberString xRaw then
      if isFiniteNumberString yRaw then
        if jsIsFiniteQ (numValue xRaw) && jsIsFiniteQ (numValue yRaw) then
          match coerceNums (rowNum + 1) rest with
          | .ok pts => .ok ((XVal.num (numValue xRaw), numValue yRaw) :: pts)
          | .error e => .error e
        else .error (.NonFiniteXY rowNum)
      else .error (.InvalidY rowNum (String.mk yRaw))
    else .error (.InvalidX rowNum (String.mk xRaw))

/-- Steps 7-9 of the parser: decide once whether the whole X column is
ISO dates (two-column case), run the matching row coercion, and assemble
the result with the axis labels. -/
def assembleRows (startIdx : ℕ) (tName vName : String) (columns : ℕ)
    (dataRows : List Row) : Except ParseError SequenceData :=
  let xAreDates :=
    if columns = 2 then dataRows.all (fun r => (parseIsoToDate (r.headD [])).isSome)
    else false
  if columns = 1 then
    match coerceOneCol (startIdx + 1) 0 dataRows with
    | .error e => .error e
    | .ok pts => .ok ⟨tName, vName, pts⟩
  else if xAreDates then
    match coerceDates (startIdx + 1) dataRows with
    | .error e => .error e
    | .ok pts => .ok ⟨tName, vName, pts⟩
  else
    match coerceNums (startIdx + 1) dataRows with
    | .error e => .error e
    | .ok pts => .ok ⟨tName, vName, pts⟩

/-- Steps 3b-9 of the parser on the tokenized rows: column-shape checks,
header detection, the all-or-nothing X-column type decision, and row
coercion. -/
def parseRows (delim : Option Char) (rows : List Row) : Except ParseError SequenceData :=
  match rows with
  | [] => .error .EmptyInput
  | r0 :: rest =>
    let columns := r0.length
    if rest.any (fun r => r.length != columns) then .error .InconsistentColumnCount
    else if columns ≠ 1 ∧ columns ≠ 2 then .error .UnsupportedColumnCount
    else if delim.isSome ∧ columns ≠ 2 then .error .DelimiterColumnMismatch
    else
      let isHeader := isHeaderRow r0
      let startIdx : ℕ := if isHeader then 1 else 0
      let timeAxisName :=
        if isHeader then (if columns = 1 then "Index" else tokOr (r0.headD []) "X")
        else if columns = 2 then "X" else "Index"
      let valueAxisName :=
        if isHeader then
          (if columns = 1 then tokOr (r0.headD []) "Value" else tokOr (r0.getD 1 []) "Value")
        else "Value"
      let dataRows := (r0 :: rest).drop startIdx
      if dataRows.isEmpty then .error .EmptyDataRegion
      else if dataRows.any (fun r => r.length != columns) then .error .RowShapeMismatch
      else assembleRows startIdx timeAxisName valueAxisName columns dataRows

/-- The embedded `parseDataText`: the whole pipeline from the raw text to
the typed sequence or a failure. -/
def parseDataText (text : String) : Except ParseError SequenceData :=
  match rowsOfText text with
  | .error e => .error e
  | .ok (delim, rows) => parseRows delim rows

/-- The data region starts at row 1 when the first row is a header. -/
def startIdxOf (rows : List Row) : ℕ :=
  if isHeaderRow (rows.headD []) then 1 else 0

/-- All X values of a point list share one representation: all indices,
all numbers, or all instants. -/
def uniformB (pts : List (XVal × ℚ)) : Bool :=
  pts.all (fun p => p.1.isIndex) || pts.all (fun p => p.1.isNum) ||
    pts.all (fun p => p.1.isInstant)

/-- Finiteness of an X value: indices are naturals, numbers must be finite
doubles, instants must be within the `Date` range. -/
def xValFinite : XVal → Bool
  | .index _ => true
  | .num q => jsIsFiniteQ q
  | .instant t => decide (t.natAbs ≤ 8640000000000000)

/-- Whether a parse outcome is the data-region row-shape failure. -/
def isRowShapeErr : Except ParseError SequenceData → Bool
  | .error .RowShapeMismatch => true
  | _ => false

/-- Whether an error is one of the two mixed-delimiter failures. -/
def errIsMixed : ParseError → Bool
  | .MixedDelimiterInLine => true
  | .MixedDelimiterAcrossLines => true
  | _ => false

/-- The errors the row-coercion loops can produce. -/
def dataErr : ParseError → Bool
  | .InvalidIsoDate _ => true
  | .InvalidX _ _ => true
  | .InvalidY _ _ => true
  | .NonFiniteY _ => true
  | .NonFiniteXY _ => true
  | _ => false


/-- Gregorian leap-year test, used to state calendar validity in the
amended form of the ISO-conversion claim. -/
def isLeapYear (y : ℕ) : Bool := (y % 4 = 0 && y % 100 ≠ 0) || y % 400 = 0

/-- Length of a Gregorian month, used to state calendar validity. -/
def daysInMonth (y m : ℕ) : ℕ :=
  if m = 2 then (if isLeapYear y then 29 else 28)
  else if m = 4 ∨ m = 6 ∨ m = 9 ∨ m = 11 then 30
  else 31


/-- A digit character has value at most 9. -/
theorem digitVal_le (c : Char) (h : isDig c = true) : digitVal c ≤ 9 := by
  unfold isDig at h
  simp only [Bool.and_eq_true, decide_eq_true_eq] at h
  unfold digitVal
  omega

theorem take2_bound {cs r : List Char} {n : ℕ} (h : take2 cs = some (n, r)) : n ≤ 99 := by
  unfold take2 at h
  split at h
  · rename_i a b rest
    split at h
    · rename_i hd
      simp only [Option.some.injEq, Prod.mk.injEq] at h
      simp only [Bool.and_eq_true] at hd
      have h1 := digitVal_le a hd.1
      have h2 := digitVal_le b hd.2
      omega
    · simp at h
  · simp at h

theorem take4_bound {cs r : List Char} {n : ℕ} (h : take4 cs = some (n, r)) : n ≤ 9999 := by
  unfold take4 at h
  split at h
  · rename_i a b c d rest
    split at h
    · rename_i hd
      simp only [Option.some.injEq, Prod.mk.injEq] at h
      simp only [Bool.and_eq_true] at hd
      have h1 := digitVal_le a hd.1.1.1
      have h2 := digitVal_le b hd.1.1.2
      have h3 := digitVal_le c hd.1.2
      have h4 := digitVal_le d hd.2
      omega
    · simp at h
  · simp at h

theorem digitsValAux_lt : ∀ (cs : List Char) (a : ℕ), (∀ c ∈ cs, isDig c = true) →
    cs.foldl (fun a c => 10 * a + digitVal c) a < (a + 1) * 10 ^ cs.length := by
  intro cs
  induction cs with
  | nil => intro a _; simp
  | cons c cs ih =>
    intro a h
    simp only [List.foldl_cons, List.length_cons]
    have hc := digitVal_le c (h c (by simp))
    have hrec := ih (10 * a + digitVal c) (fun x hx => h x (by simp [hx]))
    have hstep : (10 * a + digitVal c + 1) ≤ 10 * (a + 1) := by omega
    calc List.foldl (fun a c => 10 * a + digitVal c) (10 * a + digitVal c) cs
        < (10 * a + digitVal c + 1) * 10 ^ cs.length := hrec
      _ ≤ 10 * (a + 1) * 10 ^ cs.length := Nat.mul_le_mul_right _ hstep
      _ = (a + 1) * 10 ^ (cs.length + 1) := by ring

theorem digitsVal_lt (cs : List Char) (h : ∀ c ∈ cs, isDig c = true) :
    digitsVal cs < 10 ^ cs.length := by
  have := digitsValAux_lt cs 0 h
  simpa [digitsVal] using this

theorem matchSecMs_bound {cs r : List Char} {ss ms : Option ℕ}
    (h : matchSecMs cs = some (ss, ms, r)) : ss.getD 0 ≤ 99 ∧ ms.getD 0 ≤ 999 := by
  unfold matchSecMs at h
  split at h
  · rename_i r1
    split at h
    · simp at h
    · rename_i sv r2 heq
      have hsv := take2_bound heq
      split at h
      · rename_i r3
        simp only [] at h
        split at h
        · rename_i hlen
          simp only [Option.some.injEq, Prod.mk.injEq] at h
          obtain ⟨h1, h2, h3⟩ := h
          simp only [Bool.and_eq_true, decide_eq_true_eq] at hlen
          have hds : digitsVal (r3.takeWhile isDig) < 10 ^ (r3.takeWhile isDig).length :=
            digitsVal_lt _ (fun x hx => List.mem_takeWhile_imp hx)
          have hpad : digitsVal (r3.takeWhile isDig) * 10 ^ (3 - (r3.takeWhile isDig).length) ≤ 999 := by
            rcases hlen with ⟨hl1, hl3⟩
            have hcase : (r3.takeWhile isDig).length = 1 ∨ (r3.takeWhile isDig).length = 2 ∨
                (r3.takeWhile isDig).length = 3 := by omega
            rcases hcase with hl | hl | hl <;> rw [hl] at hds <;> simp only [hl] <;> omega
          simp [← h1, ← h2, hsv, hpad]
        · simp at h
      · simp only [Option.some.injEq, Prod.mk.injEq] at h
        obtain ⟨h1, h2, h3⟩ := h
        simp [← h1, ← h2, hsv]
  · simp only [Option.some.injEq, Prod.mk.injEq] at h
    obtain ⟨h1, h2, h3⟩ := h
    simp [← h1, ← h2]

theorem matchTz_bound {cs : List Char} {tzo : Option TzCap}
    (h : matchTz cs = some tzo) :
    ∀ neg th tm, tzo = some (TzCap.offset neg th tm) → th ≤ 99 ∧ tm ≤ 99 := by
  intro neg th tm htz
  subst htz
  unfold matchTz at h
  split at h
  · simp at h
  · simp at h
  · rename_i rest
    split at h
    · rename_i hv r3 heq
      split at h
      · rename_i mv heq2
        simp only [Option.some.injEq, TzCap.offset.injEq] at h
        obtain ⟨_, h2, h3⟩ := h
        exact ⟨h2 ▸ take2_bound heq, h3 ▸ take2_bound heq2⟩
      · simp at h
    · simp at h
  · rename_i rest
    split at h
    · rename_i hv r3 heq
      split at h
      · rename_i mv heq2
        simp only [Option.some.injEq, TzCap.offset.injEq] at h
        obtain ⟨_, h2, h3⟩ := h
        exact ⟨h2 ▸ take2_bound heq, h3 ▸ take2_bound heq2⟩
      · simp at h
    · simp at h
  · simp at h

theorem matchTime_bound {cs : List Char} {t : Option TimeCap} {tz : Option TzCap}
    (h : matchTime cs = some (t, tz)) :
    (∀ tc, t = some tc → tc.hh ≤ 99 ∧ tc.mi ≤ 99 ∧ tc.ss.getD 0 ≤ 99 ∧ tc.msec.getD 0 ≤ 999) ∧
    (∀ neg th tm, tz = some (TzCap.offset neg th tm) → th ≤ 99 ∧ tm ≤ 99) := by
  unfold matchTime at h
  split at h
  · simp only [Option.some.injEq, Prod.mk.injEq] at h
    obtain ⟨h1, h2⟩ := h
    subst h1; subst h2
    exact ⟨fun tc htc => by simp at htc, fun neg th tm htz => by simp at htz⟩
  · rename_i c rest
    split at h
    · split at h
      · rename_i hh r2 heq
        have hhh := take2_bound heq
        split at h
        · rename_i mi r3 heq2
          have hmi := take2_bound heq2
          split at h
          · rename_i ssv msv r4 heq3
            have hsm := matchSecMs_bound heq3
            split at h
            · rename_i tzv heq4
              have htzb := matchTz_bound heq4
              simp only [Option.some.injEq, Prod.mk.injEq] at h
              obtain ⟨h1, h2⟩ := h
              subst h1; subst h2
              constructor
              · intro tc htc
                simp only [Option.some.injEq] at htc
                subst htc
                exact ⟨hhh, hmi, hsm.1, hsm.2⟩
              · exact htzb
            · simp at h
          · simp at h
        · simp at h
      · simp at h
    · simp at h

theorem isoMatch_bound {cs : List Char} {c : IsoCaps} (h : isoMatch cs = some c) :
    c.y ≤ 9999 ∧ c.mo ≤ 99 ∧ c.d ≤ 99 ∧
    (∀ tc, c.time = some tc → tc.hh ≤ 99 ∧ tc.mi ≤ 99 ∧ tc.ss.getD 0 ≤ 99 ∧ tc.msec.getD 0 ≤ 999) ∧
    (∀ neg th tm, c.tz = some (TzCap.offset neg th tm) → th ≤ 99 ∧ tm ≤ 99) := by
  unfold isoMatch at h
  split at h
  · rename_i y r1 heq
    have hy := take4_bound heq
    split at h
    · rename_i mo r2 heq2
      have hmo := take2_bound heq2
      split at h
      · rename_i d r3 heq3
        have hd := take2_bound heq3
        split at h
        · rename_i tv tzv heq4
          have ht := matchTime_bound heq4
          simp only [Option.some.injEq] at h
          subst h
          exact ⟨hy, hmo, hd, ht.1, ht.2⟩
        · simp at h
      · simp at h
    · simp at h
  · simp at h

theorem daysFromCivil_bound {y m d : ℤ} (hy0 : 0 ≤ y) (hy : y ≤ 10100) (hm1 : 1 ≤ m)
    (hm : m ≤ 12) (hd1 : 0 ≤ d) (hd : d ≤ 99) :
    -800000 ≤ daysFromCivil y m d ∧ daysFromCivil y m d ≤ 3000000 := by
  unfold daysFromCivil
  simp only []
  split <;> omega

theorem makeDay_bound {year month date : ℤ} (hy0 : 0 ≤ year) (hy : year ≤ 9999)
    (hm0 : -1 ≤ month) (hm : month ≤ 98) (hd0 : 0 ≤ date) (hd : date ≤ 99) :
    -900000 ≤ makeDay year month date ∧ makeDay year month date ≤ 3100000 := by
  unfold makeDay
  simp only []
  have h1 : 0 ≤ (if 0 ≤ year ∧ year ≤ 99 then year + 1900 else year) + month / 12 := by
    split <;> omega
  have h2 : (if 0 ≤ year ∧ year ≤ 99 then year + 1900 else year) + month / 12 ≤ 10100 := by
    split <;> omega
  have h3 := daysFromCivil_bound h1 h2 (by omega : (1:ℤ) ≤ month % 12 + 1)
    (by omega : month % 12 + 1 ≤ 12) (by omega : (0:ℤ) ≤ 1) (by omega : (1:ℤ) ≤ 99)
  omega

theorem tsOfCaps_abs_le {cs : List Char} {c : IsoCaps} (h : isoMatch cs = some c) :
    (tsOfCaps c).natAbs ≤ 8640000000000000 := by
  obtain ⟨hy, hmo, hd, htime, htz⟩ := isoMatch_bound h
  have hmk : -900000 ≤ makeDay (c.y : ℤ) ((c.mo : ℤ) - 1) (c.d : ℤ) ∧
      makeDay (c.y : ℤ) ((c.mo : ℤ) - 1) (c.d : ℤ) ≤ 3100000 :=
    makeDay_bound (by omega) (by exact_mod_cast Int.ofNat_le.mpr hy) (by omega)
      (by omega) (by omega) (by exact_mod_cast Int.ofNat_le.mpr hd)
  unfold tsOfCaps makeTimeMs
  simp only []
  rcases ht : c.time with _ | tc <;> rcases hz : c.tz with _ | tzc
  · simp only []
    omega
  · rcases tzc with _ | ⟨neg, th, tm⟩
    · simp only []
      omega
    · obtain ⟨hth, htm⟩ := htz neg th tm hz
      rcases neg <;> simp <;> omega
  · obtain ⟨hhh, hmi, hss, hms⟩ := htime tc ht
    simp only []
    omega
  · rcases tzc with _ | ⟨neg, th, tm⟩
    · obtain ⟨hhh, hmi, hss, hms⟩ := htime tc ht
      simp only []
      omega
    · obtain ⟨hhh, hmi, hss, hms⟩ := htime tc ht
      obtain ⟨hth, htm⟩ := htz neg th tm hz
      rcases neg <;> simp <;> omega

theorem parseIso_eq_of_match {cs : List Char} {c : IsoCaps} (h : isoMatch cs = some c) :
    parseIsoToDate cs = some (tsOfCaps c) := by
  unfold parseIsoToDate
  rw [h]
  simp only []
  rw [if_pos (tsOfCaps_abs_le h)]

theorem parseIso_isSome_eq (cs : List Char) :
    (parseIsoToDate cs).isSome = (isoMatch cs).isSome := by
  cases h : isoMatch cs with
  | none => unfold parseIsoToDate; rw [h]; rfl
  | some c => rw [parseIso_eq_of_match h]; rfl

theorem parseIso_some_clip {cs : List Char} {t : ℤ} (h : parseIsoToDate cs = some t) :
    t.natAbs ≤ 8640000000000000 := by
  unfold parseIsoToDate at h
  split at h
  · simp at h
  · simp only [] at h
    split at h
    · rename_i hle
      simp only [Option.some.injEq] at h
      omega
    · simp at h

theorem coerceOneCol_map_fst : ∀ (rows : List Row) (rn i : ℕ) (pts : List (XVal × ℚ)),
    coerceOneCol rn i rows = .ok pts →
    pts.map Prod.fst = (List.range' i rows.length).map XVal.index := by
  intro rows
  induction rows with
  | nil =>
    intro rn i pts h
    simp only [coerceOneCol] at h
    cases h
    simp
  | cons r rest ih =>
    intro rn i pts h
    simp only [coerceOneCol] at h
    split at h
    · split at h
      · split at h
        · rename_i pts2 heq
          cases h
          simp only [List.map_cons, List.length_cons, List.range', List.map]
          exact congrArg _ (ih _ _ _ heq)
        · exact absurd h (by simp)
      · exact absurd h (by simp)
    · exact absurd h (by simp)

theorem coerceOneCol_ok : ∀ (rows : List Row) (rn i : ℕ) (pts : List (XVal × ℚ)),
    coerceOneCol rn i rows = .ok pts →
    pts.length = rows.length ∧
    pts.all (fun p => p.1.isIndex && jsIsFiniteQ p.2 && xValFinite p.1) = true := by
  intro rows
  induction rows with
  | nil =>
    intro rn i pts h
    simp only [coerceOneCol] at h
    cases h
    simp
  | cons r rest ih =>
    intro rn i pts h
    simp only [coerceOneCol] at h
    split at h
    · rename_i hfin
      split at h
      · rename_i hq
        split at h
        · rename_i pts2 heq
          cases h
          obtain ⟨ihl, iha⟩ := ih _ _ _ heq
          refine ⟨by simp [ihl], ?_⟩
          simp only [List.all_cons, Bool.and_eq_true]
          exact ⟨⟨⟨rfl, hq⟩, rfl⟩, iha⟩
        · exact absurd h (by simp)
      · exact absurd h (by simp)
    · exact absurd h (by simp)

theorem coerceOneCol_err : ∀ (rows : List Row) (rn i : ℕ) (e : ParseError),
    coerceOneCol rn i rows = .error e → dataErr e = true := by
  intro rows
  induction rows with
  | nil => intro rn i e h; simp [coerceOneCol] at h
  | cons r rest ih =>
    intro rn i e h
    simp only [coerceOneCol] at h
    split at h
    · split at h
      · split at h
        · exact absurd h (by simp)
        · rename_i e2 heq
          cases h
          exact ih _ _ _ heq
      · cases h; rfl
    · cases h; rfl

theorem coerceDates_ok : ∀ (rows : List Row) (rn : ℕ) (pts : List (XVal × ℚ)),
    coerceDates rn rows = .ok pts →
    pts.length = rows.length ∧
    pts.all (fun p => p.1.isInstant && jsIsFiniteQ p.2 && xValFinite p.1) = true := by
  intro rows
  induction rows with
  | nil =>
    intro rn pts h
    simp only [coerceDates] at h
    cases h
    simp
  | cons r rest ih =>
    intro rn pts h
    simp only [coerceDates] at h
    split at h
    · exact absurd h (by simp)
    · rename_i d hd
      split at h
      · split at h
        · rename_i hq
          split at h
          · rename_i pts2 heq
            cases h
            obtain ⟨ihl, iha⟩ := ih _ _ heq
            refine ⟨by simp [ihl], ?_⟩
            simp only [List.all_cons, Bool.and_eq_true]
            refine ⟨⟨⟨rfl, hq⟩, ?_⟩, iha⟩
            simp only [xValFinite, decide_eq_true_eq]
            exact parseIso_some_clip hd
          · exact absurd h (by simp)
        · exact absurd h (by simp)
      · exact absurd h (by simp)

theorem coerceDates_err : ∀ (rows : List Row) (rn : ℕ) (e : ParseError),
    coerceDates rn rows = .error e → dataErr e = true := by
  intro rows
  induction rows with
  | nil => intro rn e h; simp [coerceDates] at h
  | cons r rest ih =>
    intro rn e h
    simp only [coerceDates] at h
    split at h
    · cases h; rfl
    · split at h
      · split at h
        · split at h
          · exact absurd h (by simp)
          · rename_i e2 heq
            cases h
            exact ih _ _ heq
        · cases h; rfl
      · cases h; rfl

theorem coerceNums_ok : ∀ (rows : List Row) (rn : ℕ) (pts : List (XVal × ℚ)),
    coerceNums rn rows = .ok pts →
    pts.length = rows.length ∧
    pts.all (fun p => p.1.isNum && jsIsFiniteQ p.2 && xValFinite p.1) = true ∧
    rows.all (fun rw => isFiniteNumberString (jsTrim (rw.headD []))) = true := by
  intro rows
  induction rows with
  | nil =>
    intro rn pts h
    simp only [coerceNums] at h
    cases h
    simp
  | cons r rest ih =>
    intro rn pts h
    simp only [coerceNums] at h
    split at h
    · rename_i hx
      split at h
      · split at h
        · rename_i hfin
          split at h
          · rename_i pts2 heq
            cases h
            obtain ⟨ihl, iha, ihr⟩ := ih _ _ heq
            simp only [Bool.and_eq_true] at hfin
            refine ⟨by simp [ihl], ?_, ?_⟩
            · simp only [List.all_cons, Bool.and_eq_true]
              refine ⟨⟨⟨rfl, hfin.2⟩, ?_⟩, iha⟩
              simpa only [xValFinite] using hfin.1
            · simp only [List.all_cons, Bool.and_eq_true]
              exact ⟨hx, ihr⟩
          · exact absurd h (by simp)
        · exact absurd h (by simp)
      · exact absurd h (by simp)
    · exact absurd h (by simp)

theorem coerceNums_err : ∀ (rows : List Row) (rn : ℕ) (e : ParseError),
    coerceNums rn rows = .error e → dataErr e = true := by
  intro rows
  induction rows with
  | nil => intro rn e h; simp [coerceNums] at h
  | cons r rest ih =>
    intro rn e h
    simp only [coerceNums] at h
    split at h
    · split at h
      · split at h
        · split at h
          · exact absurd h (by simp)
          · rename_i e2 heq
            cases h
            exact ih _ _ heq
        · cases h; rfl
      · cases h; rfl
    · cases h; rfl

theorem assembleRows_ok_inv {startIdx : ℕ} {tName vName : String} {columns : ℕ}
    {dataRows : List Row} {r : SequenceData}
    (h : assembleRows startIdx tName vName columns dataRows = .ok r) :
    r.timeAxisName = tName ∧ r.valueAxisName = vName ∧
    ((columns = 1 ∧ coerceOneCol (startIdx + 1) 0 dataRows = .ok r.dataPoints) ∨
     (columns = 2 ∧ dataRows.all (fun rw => (parseIsoToDate (rw.headD [])).isSome) = true ∧
        coerceDates (startIdx + 1) dataRows = .ok r.dataPoints) ∨
     (columns ≠ 1 ∧
        (columns = 2 → dataRows.all (fun rw => (parseIsoToDate (rw.headD [])).isSome) = false) ∧
        coerceNums (startIdx + 1) dataRows = .ok r.dataPoints)) := by
  simp only [assembleRows] at h
  split at h
  next hc1 =>
    split at h
    next heq => exact absurd h (by simp)
    next pts heq =>
      cases h
      exact ⟨rfl, rfl, Or.inl ⟨hc1, heq⟩⟩
  next hc1 =>
    split at h
    next hc2 =>
      split at h
      next hdates =>
        split at h
        next heq => exact absurd h (by simp)
        next pts heq =>
          cases h
          exact ⟨rfl, rfl, Or.inr (Or.inl ⟨hc2, hdates, heq⟩)⟩
      next hdates =>
        split at h
        next heq => exact absurd h (by simp)
        next pts heq =>
          cases h
          exact ⟨rfl, rfl, Or.inr (Or.inr ⟨hc1, fun _ => by simpa using hdates, heq⟩)⟩
    next hc2 =>
      simp only [Bool.false_eq_true, if_false] at h
      split at h
      next heq => exact absurd h (by simp)
      next pts heq =>
        cases h
        exact ⟨rfl, rfl, Or.inr (Or.inr ⟨hc1, fun hcc => absurd hcc hc2, heq⟩)⟩

theorem assembleRows_err {startIdx : ℕ} {tName vName : String} {columns : ℕ}
    {dataRows : List Row} {e : ParseError}
    (h : assembleRows startIdx tName vName columns dataRows = .error e) :
    dataErr e = true := by
  simp only [assembleRows] at h
  split at h
  next hc1 =>
    split at h
    next e2 heq =>
      cases h
      exact coerceOneCol_err _ _ _ _ heq
    next pts heq => exact absurd h (by simp)
  next hc1 =>
    split at h
    next hc2 =>
      split at h
      next hdates =>
        split at h
        next e2 heq =>
          cases h
          exact coerceDates_err _ _ _ heq
        next pts heq => exact absurd h (by simp)
      next hdates =>
        split at h
        next e2 heq =>
          cases h
          exact coerceNums_err _ _ _ heq
        next pts heq => exact absurd h (by simp)
    next hc2 =>
      simp only [Bool.false_eq_true, if_false] at h
      split at h
      next e2 heq =>
        cases h
        exact coerceNums_err _ _ _ heq
      next pts heq => exact absurd h (by simp)

set_option maxHeartbeats 1000000 in
theorem parseRows_ok_inv {delim : Option Char} {rows : List Row} {r : SequenceData}
    (h : parseRows delim rows = .ok r) :
    ∃ r0 rest, rows = r0 :: rest ∧
      rest.any (fun rw => rw.length != r0.length) = false ∧
      (r0.length = 1 ∨ r0.length = 2) ∧
      rows.drop (startIdxOf rows) ≠ [] ∧
      r.timeAxisName = (if isHeaderRow r0 then
          (if r0.length = 1 then "Index" else tokOr (r0.headD []) "X")
        else if r0.length = 2 then "X" else "Index") ∧
      r.valueAxisName = (if isHeaderRow r0 then
          (if r0.length = 1 then tokOr (r0.headD []) "Value" else tokOr (r0.getD 1 []) "Value")
        else "Value") ∧
      assembleRows (startIdxOf rows) r.timeAxisName r.valueAxisName
        r0.length (rows.drop (startIdxOf rows)) = .ok r := by
  match rows with
  | [] => exact absurd h (by simp [parseRows])
  | r0 :: rest =>
    refine ⟨r0, rest, rfl, ?_⟩
    have hsi : startIdxOf (r0 :: rest) = if isHeaderRow r0 then 1 else 0 := by
      simp only [startIdxOf, List.headD_cons]
    simp only [parseRows] at h
    split at h
    next hany => exact absurd h (by simp)
    next hany =>
      split at h
      next hcols => exact absurd h (by simp)
      next hcols =>
        split at h
        next hdelim => exact absurd h (by simp)
        next hdelim =>
          have hcols2 : r0.length = 1 ∨ r0.length = 2 := by
            by_contra hc
            push_neg at hc
            exact hcols ⟨hc.1, hc.2⟩
          split at h
          next hhdr =>
            have hsi1 : startIdxOf (r0 :: rest) = 1 := by rw [hsi, if_pos hhdr]
            rw [hsi1]
            rw [if_pos hhdr, if_pos hhdr]
            split at h
            next hempty => exact absurd h (by simp)
            next hempty =>
              split at h
              next hshape => exact absurd h (by simp)
              next hshape =>
                have hinv := assembleRows_ok_inv h
                refine ⟨by simpa using hany, hcols2, ?_, hinv.1, hinv.2.1, ?_⟩
                · intro hnil
                  rw [hnil] at hempty
                  simp at hempty
                · rw [hinv.1, hinv.2.1]
                  exact h
          next hhdr =>
            have hsi0 : startIdxOf (r0 :: rest) = 0 := by rw [hsi, if_neg hhdr]
            rw [hsi0]
            rw [if_neg hhdr, if_neg hhdr]
            split at h
            next hempty => exact absurd h (by simp)
            next hempty =>
              split at h
              next hshape => exact absurd h (by simp)
              next hshape =>
                have hinv := assembleRows_ok_inv h
                refine ⟨by simpa using hany, hcols2, ?_, hinv.1, hinv.2.1, ?_⟩
                · intro hnil
                  rw [hnil] at hempty
                  simp at hempty
                · rw [hinv.1, hinv.2.1]
                  exact h

theorem dataErr_class {e : ParseError} (h : dataErr e = true) :
    errIsMixed e = false ∧ e ≠ ParseError.RowShapeMismatch := by
  cases e <;> simp [dataErr, errIsMixed] at h ⊢

set_option maxHeartbeats 1000000 in
theorem parseRows_err_class {delim : Option Char} {rows : List Row} {e : ParseError}
    (h : parseRows delim rows = .error e) :
    errIsMixed e = false ∧ e ≠ ParseError.RowShapeMismatch := by
  match rows with
  | [] =>
    simp only [parseRows, Except.error.injEq] at h
    subst h
    simp [errIsMixed]
  | r0 :: rest =>
    simp only [parseRows] at h
    split at h
    next hany =>
      simp only [Except.error.injEq] at h
      subst h
      simp [errIsMixed]
    next hany =>
      split at h
      next hcols =>
        simp only [Except.error.injEq] at h
        subst h
        simp [errIsMixed]
      next hcols =>
        split at h
        next hdelim =>
          simp only [Except.error.injEq] at h
          subst h
          simp [errIsMixed]
        next hdelim =>
          split at h
          next hhdr =>
            split at h
            next hempty =>
              simp only [Except.error.injEq] at h
              subst h
              simp [errIsMixed]
            next hempty =>
              split at h
              next hshape =>
                exact absurd hshape (by simpa using hany)
              next hshape => exact dataErr_class (assembleRows_err h)
          next hhdr =>
            split at h
            next hempty =>
              simp only [Except.error.injEq] at h
              subst h
              simp [errIsMixed]
            next hempty =>
              split at h
              next hshape =>
                rw [List.drop_zero] at hshape
                simp only [List.any_cons, bne_self_eq_false, Bool.false_or] at hshape
                exact absurd hshape (by simpa using hany)
              next hshape => exact dataErr_class (assembleRows_err h)

theorem detectDelimiter_err {lines : List Token} {e : ParseError}
    (h : detectDelimiter lines = .error e) :
    e = ParseError.MixedDelimiterInLine ∨ e = ParseError.MixedDelimiterAcrossLines := by
  unfold detectDelimiter at h
  split at h
  · simp only [Except.error.injEq] at h
    exact Or.inl h.symm
  · split at h
    · simp only [Except.error.injEq] at h
      exact Or.inr h.symm
    · simp at h

theorem rowsOfText_err {text : String} {e : ParseError}
    (h : rowsOfText text = .error e) :
    (e = ParseError.EmptyInput ∧ linesOf text = []) ∨
      detectDelimiter (linesOf text) = .error e := by
  unfold rowsOfText at h
  simp only [] at h
  split at h
  next hemp =>
    simp only [Except.error.injEq] at h
    exact Or.inl ⟨h.symm, by simpa using hemp⟩
  · split at h
    next e2 heq =>
      simp only [Except.error.injEq] at h
      exact Or.inr (h ▸ heq)
    next => simp at h

theorem rowsOfText_ok_inv {text : String} {delim : Option Char} {rows : List Row}
    (h : rowsOfText text = .ok (delim, rows)) :
    (linesOf text).isEmpty = false ∧ detectDelimiter (linesOf text) = .ok delim ∧
      rows = tokenizeRows delim (linesOf text) := by
  unfold rowsOfText at h
  simp only [] at h
  split at h
  · simp at h
  next hne =>
    split at h
    next e2 heq => simp at h
    next d2 heq =>
      simp only [Except.ok.injEq, Prod.mk.injEq] at h
      obtain ⟨h1, h2⟩ := h
      subst h1
      exact ⟨by simpa using hne, heq, h2.symm⟩

theorem parse_eq_parseRows {text : String} {delim : Option Char} {rows : List Row}
    (h : rowsOfText text = .ok (delim, rows)) :
    parseDataText text = parseRows delim rows := by
  unfold parseDataText
  rw [h]

theorem all_iso_eq (drs : List Row) :
    drs.all (fun rw => (parseIsoToDate (rw.headD [])).isSome) =
    drs.all (fun rw => (isoMatch (rw.headD [])).isSome) := by
  induction drs with
  | nil => rfl
  | cons r rest ih => simp only [List.all_cons, ih, parseIso_isSome_eq]

theorem all_split3 {α : Type} {l : List α} {f g k : α → Bool}
    (hh : l.all (fun x => f x && g x && k x) = true) : l.all f = true := by
  simp only [List.all_eq_true, Bool.and_eq_true] at hh ⊢
  exact fun x hx => ((hh x hx).1).1

theorem all_split3_right {α : Type} {l : List α} {f g k : α → Bool}
    (hh : l.all (fun x => f x && g x && k x) = true) : l.all (fun x => g x && k x) = true := by
  simp only [List.all_eq_true, Bool.and_eq_true] at hh ⊢
  exact fun x hx => ⟨(hh x hx).1.2, (hh x hx).2⟩

theorem nums_not_instants {pts : List (XVal × ℚ)} (hne : pts ≠ [])
    (h : pts.all (fun p => p.1.isNum) = true) :
    pts.all (fun p => p.1.isInstant) = false := by
  cases pts with
  | nil => exact absurd rfl hne
  | cons p rest =>
    simp only [List.all_cons, Bool.and_eq_true] at h
    rcases p with ⟨x, yv⟩
    cases x with
    | index i => simp [XVal.isNum] at h
    | num q => simp [XVal.isInstant]
    | instant t => simp [XVal.isNum] at h

/-- Claim C9: the data-region row-shape check is unreachable: once the
global column-count validation has passed, every data row necessarily has
the detected column count, so parse never fails with `RowShapeMismatch`. -/
theorem c9_row_shape_unreachable (text : String) :
    isRowShapeErr (parseDataText text) = false := by
  unfold parseDataText
  split
  next e heq =>
    rcases rowsOfText_err heq with ⟨h, _⟩ | h
    · subst h; rfl
    · rcases detectDelimiter_err h with h2 | h2 <;> subst h2 <;> rfl
  next delim rows heq =>
    cases hp : parseRows delim rows with
    | ok r => simp [isRowShapeErr]
    | error e =>
      have hc := (parseRows_err_class hp).2
      cases e <;> first | rfl | exact absurd rfl hc

theorem detectDelimiter_mixed1_iff (lines : List Token) :
    detectDelimiter lines = .error .MixedDelimiterInLine ↔
    lines.any (fun l => l.contains ',' && l.contains '\t') = true := by
  unfold detectDelimiter
  constructor
  · intro h
    by_contra hc
    rw [if_neg hc] at h
    split at h <;> simp at h
  · intro h
    rw [if_pos h]

theorem detectDelimiter_mixed2_iff (lines : List Token) :
    detectDelimiter lines = .error .MixedDelimiterAcrossLines ↔
    (lines.any (fun l => l.contains ',' && l.contains '\t') = false ∧
     lines.any (fun l => l.contains ',') = true ∧
     lines.any (fun l => l.contains '\t') = true) := by
  unfold detectDelimiter
  constructor
  · intro h
    split at h
    · simp at h
    next h1 =>
      split at h
      next h2 =>
        simp only [Bool.and_eq_true] at h2
        exact ⟨by simpa using h1, h2.1, h2.2⟩
      · simp at h
  · rintro ⟨h1, h2, h3⟩
    have hn1 : ¬((lines.any fun l => l.contains ',' && l.contains '\t') = true) := by
      rw [h1]
      decide
    have hn2 : ((lines.any fun l => l.contains ',') && (lines.any fun l => l.contains '\t')) = true := by
      rw [h2, h3]
      decide
    rw [if_neg hn1, if_pos hn2]

theorem parse_mixed_iff (text : String) (e : ParseError) (he : errIsMixed e = true) :
    parseDataText text = .error e ↔ detectDelimiter (linesOf text) = .error e := by
  unfold parseDataText
  cases hr : rowsOfText text with
  | error e2 =>
    rcases rowsOfText_err hr with ⟨hemp, hlines⟩ | hdet
    · subst hemp
      constructor
      · intro h
        simp only [Except.error.injEq] at h
        subst h
        simp [errIsMixed] at he
      · intro h
        rw [hlines] at h
        simp [detectDelimiter] at h
    · constructor
      · intro h
        simp only [Except.error.injEq] at h
        exact h ▸ hdet
      · intro h
        rw [hdet] at h
        simp only [Except.error.injEq] at h
        rw [h]
  | ok p =>
    obtain ⟨delim, rows⟩ := p
    obtain ⟨hle, hdet, hrows⟩ := rowsOfText_ok_inv hr
    constructor
    · intro h
      have := (parseRows_err_class h).1
      rw [he] at this
      simp at this
    · intro h
      rw [hdet] at h
      simp at h

/-- Claim C4: delimiter detection over the non-blank lines: the
in-line mixed-delimiter failure happens exactly when one line holds both a
comma and a tab; the across-lines failure exactly when no line holds both
but some line has a comma and some line has a tab; otherwise the delimiter
is comma over tab over none. -/
theorem c4_delimiter_detection (text : String) :
    (parseDataText text = .error .MixedDelimiterInLine ↔
      (linesOf text).any (fun l => l.contains ',' && l.contains '\t') = true) ∧
    (parseDataText text = .error .MixedDelimiterAcrossLines ↔
      ((linesOf text).any (fun l => l.contains ',' && l.contains '\t') = false ∧
       (linesOf text).any (fun l => l.contains ',') = true ∧
       (linesOf text).any (fun l => l.contains '\t') = true)) ∧
    ((linesOf text).any (fun l => l.contains ',' && l.contains '\t') = false →
     ((linesOf text).any (fun l => l.contains ',') &&
        (linesOf text).any (fun l => l.contains '\t')) = false →
     detectDelimiter (linesOf text) =
       .ok (if (linesOf text).any (fun l => l.contains ',') then some ','
            else if (linesOf text).any (fun l => l.contains '\t') then some '\t'
            else none)) := by
  refine ⟨?_, ?_, ?_⟩
  · exact (parse_mixed_iff text .MixedDelimiterInLine rfl).trans (detectDelimiter_mixed1_iff _)
  · exact (parse_mixed_iff text .MixedDelimiterAcrossLines rfl).trans (detectDelimiter_mixed2_iff _)
  · intro h1 h2
    unfold detectDelimiter
    have hn1 : ¬(((linesOf text).any fun l => l.contains ',' && l.contains '\t') = true) := by
      rw [h1]
      decide
    have hn2 : ¬((((linesOf text).any fun l => l.contains ',') &&
        ((linesOf text).any fun l => l.contains '\t')) = true) := by
      rw [h2]
      decide
    rw [if_neg hn1, if_neg hn2]

theorem c4_delimiter_detection_witness :
    parseDataText "a,b\tc" = .error .MixedDelimiterInLine ∧
    parseDataText "a,b\nc\td" = .error .MixedDelimiterAcrossLines ∧
    detectDelimiter (linesOf "1,2") = .ok (some ',') := by
  refine ⟨(c4_delimiter_detection "a,b\tc").1.mpr (by decide),
          (c4_delimiter_detection "a,b\nc\td").2.1.mpr (by decide),
          ((c4_delimiter_detection "1,2").2.2 (by decide) (by decide)).trans (by decide)⟩

/-- Claim C8: parse is deterministic: two successful invocations on the
same text give structurally equal results. -/
theorem c8_deterministic (text : String) (r₁ r₂ : SequenceData)
    (h1 : parseDataText text = .ok r₁) (h2 : parseDataText text = .ok r₂) :
    r₁.timeAxisName = r₂.timeAxisName ∧ r₁.valueAxisName = r₂.valueAxisName ∧
      r₁.dataPoints = r₂.dataPoints := by
  rw [h1] at h2
  cases h2
  exact ⟨rfl, rfl, rfl⟩

theorem c8_deterministic_witness :
    (⟨"Index", "Value", [(XVal.index 0, 10)]⟩ : SequenceData).timeAxisName =
      (⟨"Index", "Value", [(XVal.index 0, 10)]⟩ : SequenceData).timeAxisName ∧
    (⟨"Index", "Value", [(XVal.index 0, 10)]⟩ : SequenceData).valueAxisName =
      (⟨"Index", "Value", [(XVal.index 0, 10)]⟩ : SequenceData).valueAxisName ∧
    (⟨"Index", "Value", [(XVal.index 0, 10)]⟩ : SequenceData).dataPoints =
      (⟨"Index", "Value", [(XVal.index 0, 10)]⟩ : SequenceData).dataPoints :=
  c8_deterministic "10" _ _ (by with_unfolding_all rfl) (by with_unfolding_all rfl)

/-- Claim C1 is violated by the code: `parseIsoToDate` accepts strings with
out-of-range calendar fields, because the epoch arithmetic normalizes the
overflow instead of failing: day 31 of February 2024 is accepted as the
instant 2024-03-02T00:00:00Z, month 13 of 2024 as 2025-01-01T00:00:00Z,
and such a string is accepted as an absolute-time X value by the parser. -/
theorem c1_invalid_calendar_accepted :
    parseIsoToDate "2024-02-31".data = some 1709337600000 ∧
    parseIsoToDate "2024-13-01".data = some 1735689600000 ∧
    parseDataText "2024-02-31,5" =
      .ok ⟨"X", "Value", [(XVal.instant 1709337600000, 5)]⟩ :=
  ⟨by decide, by decide, by with_unfolding_all rfl⟩

/-- Claim C10: header detection runs on the raw split tokens while row
coercion trims: in `"1, 2\n3, 4"` the token `" 2"` fails the raw numeric
test (so the first row is taken as a header) although its trimmed form
passes, and the parse succeeds with the first row as labels. -/
theorem c10_raw_token_header :
    parseDataText "1, 2\n3, 4" = .ok ⟨"1", " 2", [(XVal.num 3, 4)]⟩ ∧
    isFiniteNumberString " 2".data = false ∧
    isFiniteNumberString (jsTrim " 2".data) = true ∧
    isFiniteNumberString "1".data = true ∧
    isHeaderRow ["1".data, " 2".data] = true :=
  ⟨by with_unfolding_all rfl, by with_unfolding_all rfl, by with_unfolding_all rfl,
    by with_unfolding_all rfl, by with_unfolding_all rfl⟩

/-- Claim C2: on every successful parse all X values share one
representation (indices, numbers, or instants); in the two-column case the
instant representation is chosen exactly when every data row's first raw
token matches the ISO pattern, and otherwise success forces every data
row's trimmed first token to be a finite-number string. -/
theorem c2_uniform_x_representation (text : String) (r : SequenceData)
    (delim : Option Char) (rows : List Row)
    (hp : parseDataText text = .ok r) (hr : rowsOfText text = .ok (delim, rows)) :
    uniformB r.dataPoints = true ∧
    ((rows.headD []).length = 2 →
      ((rows.drop (startIdxOf rows)).all (fun rw => (isoMatch (rw.headD [])).isSome) = true ↔
        r.dataPoints.all (fun p => p.1.isInstant) = true) ∧
      ((rows.drop (startIdxOf rows)).all (fun rw => (isoMatch (rw.headD [])).isSome) = false →
        (rows.drop (startIdxOf rows)).all
          (fun rw => isFiniteNumberString (jsTrim (rw.headD []))) = true)) := by
  have hpr : parseRows delim rows = .ok r := by
    rw [← parse_eq_parseRows hr]
    exact hp
  obtain ⟨r0, rest, hrows, hany, hcols, hne, ht, hv, hasm⟩ := parseRows_ok_inv hpr
  obtain ⟨-, -, hdisj⟩ := assembleRows_ok_inv hasm
  subst hrows
  rw [List.headD_cons]
  rcases hdisj with ⟨hc1, hco⟩ | ⟨hc2, hall, hco⟩ | ⟨hne1, himp, hco⟩
  · obtain ⟨hlen, hall⟩ := coerceOneCol_ok _ _ _ _ hco
    constructor
    · have hidx := all_split3 hall
      simp [uniformB, hidx]
    · intro h2
      rw [hc1] at h2
      exact absurd h2 (by decide)
  · obtain ⟨hlen, hallp⟩ := coerceDates_ok _ _ _ hco
    have hinst := all_split3 hallp
    constructor
    · simp [uniformB, hinst]
    · intro h2
      rw [← all_iso_eq]
      exact ⟨iff_of_true hall hinst, fun hfalse => absurd hall (by rw [hfalse]; decide)⟩
  · obtain ⟨hlen, hallp, hrows2⟩ := coerceNums_ok _ _ _ hco
    have hnum := all_split3 hallp
    have hc2 : r0.length = 2 := by
      rcases hcols with h | h
      · exact absurd h hne1
      · exact h
    have hfalse : ((r0 :: rest).drop (startIdxOf (r0 :: rest))).all
        (fun rw => (parseIsoToDate (rw.headD [])).isSome) = false := himp hc2
    constructor
    · simp [uniformB, hnum]
    · intro h2
      have hptsne : r.dataPoints ≠ [] := by
        intro hnil
        rw [hnil] at hlen
        exact hne (List.length_eq_zero.mp hlen.symm)
      refine ⟨?_, fun _ => hrows2⟩
      rw [← all_iso_eq]
      exact iff_of_false (by rw [hfalse]; decide)
        (by rw [nums_not_instants hptsne hnum]; decide)

theorem c2_uniform_x_representation_witness :
    uniformB [(XVal.instant 1704067200000, 1), (XVal.instant 1704153600000, 2)] = true ∧
    ([["1".data, " 2".data], ["3".data, " 4".data]].drop
        (startIdxOf [["1".data, " 2".data], ["3".data, " 4".data]])).all
      (fun rw => isFiniteNumberString (jsTrim (rw.headD []))) = true := by
  constructor
  · exact (c2_uniform_x_representation "2024-01-01,1\n2024-01-02,2"
      ⟨"X", "Value", [(XVal.instant 1704067200000, 1), (XVal.instant 1704153600000, 2)]⟩
      (some ',') [["2024-01-01".data, "1".data], ["2024-01-02".data, "2".data]]
      (by with_unfolding_all rfl) (by with_unfolding_all rfl)).1
  · exact ((c2_uniform_x_representation "1, 2\n3, 4"
      ⟨"1", " 2", [(XVal.num 3, 4)]⟩ (some ',')
      [["1".data, " 2".data], ["3".data, " 4".data]]
      (by with_unfolding_all rfl) (by with_unfolding_all rfl)).2 (by decide)).2
      (by with_unfolding_all decide)

/-- Claim C3: when the first row is detected as a header, the returned axis
labels equal the literal non-empty header tokens exactly, and the given
example parses to the stated labels and UTC instants. -/
theorem c3_header_labels :
    (∀ (text : String) (r : SequenceData) (delim : Option Char) (x y : Token)
        (rest : List Row),
      parseDataText text = .ok r →
      rowsOfText text = .ok (delim, (x :: y :: List.nil) :: rest) →
      isHeaderRow (x :: y :: List.nil) = true →
      (x.isEmpty = false → r.timeAxisName = String.mk x) ∧
      (y.isEmpty = false → r.valueAxisName = String.mk y)) ∧
    (∀ (text : String) (r : SequenceData) (delim : Option Char) (x : Token)
        (rest : List Row),
      parseDataText text = .ok r →
      rowsOfText text = .ok (delim, (x :: List.nil) :: rest) →
      isHeaderRow (x :: List.nil) = true →
      x.isEmpty = false →
      r.timeAxisName = "Index" ∧ r.valueAxisName = String.mk x) ∧
    parseDataText "Time,Temp\n2024-01-01,10\n2024-01-02,12" =
      .ok ⟨"Time", "Temp",
        [(XVal.instant 1704067200000, 10), (XVal.instant 1704153600000, 12)]⟩ := by
  refine ⟨?_, ?_, by with_unfolding_all rfl⟩
  · intro text r delim x y rest hp hr hhdr
    have hpr : parseRows delim ((x :: y :: List.nil) :: rest) = .ok r := by
      rw [← parse_eq_parseRows hr]
      exact hp
    obtain ⟨r0, rest2, hrows, hany, hcols, hne, ht, hv, hasm⟩ := parseRows_ok_inv hpr
    cases hrows
    refine ⟨fun hx => ?_, fun hy => ?_⟩
    · rw [ht, if_pos hhdr, if_neg (by simp : ¬((x :: y :: List.nil) : Row).length = 1),
        List.headD_cons]
      unfold tokOr
      rw [if_neg (by rw [hx]; decide)]
    · rw [hv, if_pos hhdr, if_neg (by simp : ¬((x :: y :: List.nil) : Row).length = 1)]
      have hg : ((x :: y :: List.nil) : Row).getD 1 [] = y := by rfl
      rw [hg]
      unfold tokOr
      rw [if_neg (by rw [hy]; decide)]
  · intro text r delim x rest hp hr hhdr hx
    have hpr : parseRows delim ((x :: List.nil) :: rest) = .ok r := by
      rw [← parse_eq_parseRows hr]
      exact hp
    obtain ⟨r0, rest2, hrows, hany, hcols, hne, ht, hv, hasm⟩ := parseRows_ok_inv hpr
    cases hrows
    constructor
    · rw [ht, if_pos hhdr, if_pos (by simp : ((x :: List.nil) : Row).length = 1)]
    · rw [hv, if_pos hhdr, if_pos (by simp : ((x :: List.nil) : Row).length = 1),
        List.headD_cons]
      unfold tokOr
      rw [if_neg (by rw [hx]; decide)]

theorem c3_header_labels_witness :
    (⟨"Time", "Temp",
        [(XVal.instant 1704067200000, 10), (XVal.instant 1704153600000, 12)]⟩ :
      SequenceData).timeAxisName = String.mk "Time".data ∧
    (⟨"Time", "Temp",
        [(XVal.instant 1704067200000, 10), (XVal.instant 1704153600000, 12)]⟩ :
      SequenceData).valueAxisName = String.mk "Temp".data := by
  have h := c3_header_labels.1 "Time,Temp\n2024-01-01,10\n2024-01-02,12"
    ⟨"Time", "Temp", [(XVal.instant 1704067200000, 10), (XVal.instant 1704153600000, 12)]⟩
    (some ',') "Time".data "Temp".data
    [["2024-01-01".data, "10".data], ["2024-01-02".data, "12".data]]
    (by with_unfolding_all rfl) (by with_unfolding_all rfl) (by with_unfolding_all rfl)
  exact ⟨h.1 (by decide), h.2 (by decide)⟩

/-- Claim C7: valid single-column numeric input without a header yields X
values that are exactly the zero-based indices in order, with the default
axis label, and the given example evaluates as stated. -/
theorem c7_single_column_indices :
    (∀ (text : String) (r : SequenceData) (delim : Option Char) (rows : List Row),
      parseDataText text = .ok r → rowsOfText text = .ok (delim, rows) →
      (rows.headD []).length = 1 → isHeaderRow (rows.headD []) = false →
      r.timeAxisName = "Index" ∧
      r.dataPoints.map Prod.fst = (List.range rows.length).map XVal.index) ∧
    parseDataText "10\n20\n30" =
      .ok ⟨"Index", "Value",
        [(XVal.index 0, 10), (XVal.index 1, 20), (XVal.index 2, 30)]⟩ := by
  refine ⟨?_, by with_unfolding_all rfl⟩
  intro text r delim rows hp hr hlen1 hnohdr
  have hpr : parseRows delim rows = .ok r := by
    rw [← parse_eq_parseRows hr]
    exact hp
  obtain ⟨r0, rest, hrows, hany, hcols, hne, ht, hv, hasm⟩ := parseRows_ok_inv hpr
  obtain ⟨-, -, hdisj⟩ := assembleRows_ok_inv hasm
  subst hrows
  rw [List.headD_cons] at hlen1 hnohdr
  have hsi : startIdxOf (r0 :: rest) = 0 := by
    simp [startIdxOf, hnohdr]
  constructor
  · rw [ht, if_neg (by rw [hnohdr]; decide), if_neg (by rw [hlen1]; decide)]
  · rcases hdisj with ⟨hc1, hco⟩ | ⟨hc2, hall, hco⟩ | ⟨hne1, himp, hco⟩
    · rw [hsi, List.drop_zero] at hco
      have := coerceOneCol_map_fst _ _ _ _ hco
      rw [this, List.range_eq_range']
    · rw [hlen1] at hc2
      exact absurd hc2 (by decide)
    · exact absurd hlen1 hne1

theorem c7_single_column_indices_witness :
    (⟨"Index", "Value", [(XVal.index 0, 10), (XVal.index 1, 20), (XVal.index 2, 30)]⟩ :
      SequenceData).timeAxisName = "Index" ∧
    (⟨"Index", "Value", [(XVal.index 0, 10), (XVal.index 1, 20), (XVal.index 2, 30)]⟩ :
      SequenceData).dataPoints.map Prod.fst =
      (List.range [["10".data], ["20".data], ["30".data]].length).map XVal.index :=
  c7_single_column_indices.1 "10\n20\n30"
    ⟨"Index", "Value", [(XVal.index 0, 10), (XVal.index 1, 20), (XVal.index 2, 30)]⟩
    none [["10".data], ["20".data], ["30".data]]
    (by with_unfolding_all rfl) (by with_unfolding_all rfl) (by decide)
    (by with_unfolding_all rfl)

set_option maxRecDepth 8000 in
/-- Claim C5: `"NaN"` and `"Infinity"` fail the finite-number check, any
token whose numeric value is non-finite fails it, every successful parse
contains only finite values, and the concrete inputs with non-finite Y
fields fail with `InvalidY`. -/
theorem c5_nonfinite_rejected :
    isFiniteNumberString "NaN".data = false ∧
    isFiniteNumberString "Infinity".data = false ∧
    (∀ cs : List Char, numReTest cs = true → jsIsFiniteQ (numValue cs) = false →
      isFiniteNumberString cs = false) ∧
    (∀ (text : String) (r : SequenceData), parseDataText text = .ok r →
      r.dataPoints.all (fun p => jsIsFiniteQ p.2 && xValFinite p.1) = true) ∧
    parseDataText "1,2\n3,NaN" = .error (.InvalidY 2 "NaN") ∧
    parseDataText "1,2\n3,Infinity" = .error (.InvalidY 2 "Infinity") ∧
    parseDataText "1,2\n3,1e309" = .error (.InvalidY 2 "1e309") := by
  refine ⟨by with_unfolding_all rfl, by with_unfolding_all rfl, ?_, ?_,
    by with_unfolding_all rfl, by with_unfolding_all rfl, by with_unfolding_all rfl⟩
  · intro cs h1 h2
    simp [isFiniteNumberString, h2]
  · intro text r hp
    cases hrt : rowsOfText text with
    | error e =>
      unfold parseDataText at hp
      rw [hrt] at hp
      simp at hp
    | ok p =>
      obtain ⟨delim, rows⟩ := p
      have hpr : parseRows delim rows = .ok r := by
        rw [← parse_eq_parseRows hrt]
        exact hp
      obtain ⟨r0, rest, hrows, hany, hcols, hne, ht, hv, hasm⟩ := parseRows_ok_inv hpr
      obtain ⟨-, -, hdisj⟩ := assembleRows_ok_inv hasm
      rcases hdisj with ⟨hc1, hco⟩ | ⟨hc2, hall, hco⟩ | ⟨hne1, himp, hco⟩
      · exact all_split3_right (coerceOneCol_ok _ _ _ _ hco).2
      · exact all_split3_right (coerceDates_ok _ _ _ hco).2
      · exact all_split3_right (coerceNums_ok _ _ _ hco).2.1

set_option maxRecDepth 8000 in
theorem c5_nonfinite_rejected_witness :
    isFiniteNumberString "1e309".data = false ∧
    ([(XVal.index 0, (10 : ℚ))] : List (XVal × ℚ)).all
      (fun p => jsIsFiniteQ p.2 && xValFinite p.1) = true := by
  constructor
  · exact c5_nonfinite_rejected.2.2.1 "1e309".data (by with_unfolding_all rfl)
      (by with_unfolding_all rfl)
  · exact c5_nonfinite_rejected.2.2.2.1 "10" ⟨"Index", "Value", [(XVal.index 0, 10)]⟩
      (by with_unfolding_all rfl)

/-- Claim C6 as stated is false on the code: the date-only string
`0050-01-01` is not mapped to midnight UTC of the year-50 date (which is
`86400000 * daysFromCivil 50 1 1`); the underlying epoch conversion shifts
four-digit years 0..99 by 1900, so it maps to 1950-01-01T00:00:00Z. -/
theorem c6_counterexample :
    parseIsoToDate "0050-01-01".data = some (-631152000000) ∧
    ((86400000 * daysFromCivil 50 1 1 == (-631152000000 : ℤ)) = false) := by
  exact ⟨by decide, by decide⟩

theorem c6_rule1 (s : List Char) (y mo d : ℕ)
    (hm : isoMatch s = some ⟨y, mo, d, none, none⟩)
    (h100 : 100 ≤ y) (hmo1 : 1 ≤ mo) (hmo12 : mo ≤ 12) (hd1 : 1 ≤ d)
    (hdm : d ≤ daysInMonth y mo) :
    parseIsoToDate s = some (86400000 * daysFromCivil y mo d) := by
  rw [parseIso_eq_of_match hm]
  congr 1
  have hd31 : d ≤ 31 := by
    unfold daysInMonth at hdm
    split at hdm
    · split at hdm <;> omega
    · split at hdm <;> omega
  unfold tsOfCaps makeDay makeTimeMs daysFromCivil
  simp only []
  split_ifs <;> omega

theorem c6_rule2 (s : List Char) (y mo d : ℕ) (t : TimeCap) (tz : Option TzCap)
    (hm : isoMatch s = some ⟨y, mo, d, some t, tz⟩)
    (htz : tz = none ∨ tz = some TzCap.utc)
    (h100 : 100 ≤ y) (hmo1 : 1 ≤ mo) (hmo12 : mo ≤ 12) (hd1 : 1 ≤ d)
    (hdm : d ≤ daysInMonth y mo) :
    parseIsoToDate s = some (86400000 * daysFromCivil y mo d +
      makeTimeMs t.hh t.mi (t.ss.getD 0) (t.msec.getD 0)) := by
  rw [parseIso_eq_of_match hm]
  congr 1
  have hd31 : d ≤ 31 := by
    unfold daysInMonth at hdm
    split at hdm
    · split at hdm <;> omega
    · split at hdm <;> omega
  rcases htz with h | h <;> subst h <;>
    · unfold tsOfCaps makeDay makeTimeMs daysFromCivil
      simp only []
      split_ifs <;> omega

theorem c6_rule3 (s : List Char) (y mo d : ℕ) (t : TimeCap) (neg : Bool) (th tm : ℕ)
    (hm : isoMatch s = some ⟨y, mo, d, some t, some (TzCap.offset neg th tm)⟩)
    (h100 : 100 ≤ y) (hmo1 : 1 ≤ mo) (hmo12 : mo ≤ 12) (hd1 : 1 ≤ d)
    (hdm : d ≤ daysInMonth y mo) :
    parseIsoToDate s = some (86400000 * daysFromCivil y mo d +
      makeTimeMs t.hh t.mi (t.ss.getD 0) (t.msec.getD 0) -
      ((if neg then -1 else 1) * ((th : ℤ) * 60 + (tm : ℤ))) * 60000) := by
  rw [parseIso_eq_of_match hm]
  congr 1
  have hd31 : d ≤ 31 := by
    unfold daysInMonth at hdm
    split at hdm
    · split at hdm <;> omega
    · split at hdm <;> omega
  rcases neg <;>
    · unfold tsOfCaps makeDay makeTimeMs daysFromCivil
      simp only []
      split_ifs <;> omega

/-- Claim C6 amended: for ISO strings whose year field is at least 100 and
whose calendar fields are in range, a date-only string maps to midnight UTC
of that date; a string with a time but no timezone designator, or with `Z`,
is interpreted as UTC; a string with an explicit offset is converted to UTC
by subtracting the offset from the literal wall-clock fields — in
particular `2024-01-01T10:00:00+02:00` maps to 2024-01-01T08:00:00Z
(1704096000000 ms). -/
theorem c6_iso_conversion_amended :
    (∀ (s : List Char) (y mo d : ℕ),
      isoMatch s = some ⟨y, mo, d, none, none⟩ →
      100 ≤ y → 1 ≤ mo → mo ≤ 12 → 1 ≤ d → d ≤ daysInMonth y mo →
      parseIsoToDate s = some (86400000 * daysFromCivil y mo d)) ∧
    (∀ (s : List Char) (y mo d : ℕ) (t : TimeCap) (tz : Option TzCap),
      isoMatch s = some ⟨y, mo, d, some t, tz⟩ →
      tz = none ∨ tz = some TzCap.utc →
      100 ≤ y → 1 ≤ mo → mo ≤ 12 → 1 ≤ d → d ≤ daysInMonth y mo →
      parseIsoToDate s = some (86400000 * daysFromCivil y mo d +
        makeTimeMs t.hh t.mi (t.ss.getD 0) (t.msec.getD 0))) ∧
    (∀ (s : List Char) (y mo d : ℕ) (t : TimeCap) (neg : Bool) (th tm : ℕ),
      isoMatch s = some ⟨y, mo, d, some t, some (TzCap.offset neg th tm)⟩ →
      100 ≤ y → 1 ≤ mo → mo ≤ 12 → 1 ≤ d → d ≤ daysInMonth y mo →
      parseIsoToDate s = some (86400000 * daysFromCivil y mo d +
        makeTimeMs t.hh t.mi (t.ss.getD 0) (t.msec.getD 0) -
        ((if neg then -1 else 1) * ((th : ℤ) * 60 + (tm : ℤ))) * 60000)) ∧
    parseIsoToDate "2024-01-01T10:00:00+02:00".data = some 1704096000000 :=
  ⟨c6_rule1, c6_rule2, c6_rule3, by decide⟩

theorem c6_iso_conversion_amended_witness :
    parseIsoToDate "2024-05-06".data = some (86400000 * daysFromCivil 2024 5 6) ∧
    parseIsoToDate "2024-01-01T10:00:00+02:00".data =
      some (86400000 * daysFromCivil 2024 1 1 + makeTimeMs 10 0 0 0 -
        ((if false then (-1 : ℤ) else 1) * ((2 : ℤ) * 60 + (0 : ℤ))) * 60000) := by
  constructor
  · exact c6_iso_conversion_amended.1 "2024-05-06".data 2024 5 6 (by decide) (by decide)
      (by decide) (by decide) (by decide) (by decide)
  · exact c6_iso_conversion_amended.2.2.1 "2024-01-01T10:00:00+02:00".data 2024 1 1
      ⟨10, 0, some 0, none⟩ false 2 0 (by decide) (by decide) (by decide) (by decide)
      (by decide) (by decide)
